import Mathlib

/-!
Shallow embedding of src/index.js of the figmasset repository, with proofs
about the embedded operations.

Modelling conventions:
* a JS object with string keys is an association list in insertion order;
  jsGet and objSet mirror property read and property write;
* JS strings are String; the numbers used as scales are Nat;
* null and undefined are Option.none; a JS value that may be a string or
  null / undefined is Option String;
* async functions that only propagate failure are Except String;
* the injected fetch capability is replaced by explicit response arguments,
  so every operation is a pure function of the responses it would receive.
-/

namespace Figmasset

/-- Property read on a JS object modelled as an association list: the value
at the first matching key, none when the key is absent. -/
def jsGet {α : Type} : List (String × α) → String → Option α
  | [], _ => none
  | p :: l, k => if p.1 = k then some p.2 else jsGet l k

/-- Property write on a JS object: replaces the value at an existing key in
place, otherwise appends the new key at the end (JS insertion order). -/
def objSet {α : Type} : List (String × α) → String → α → List (String × α)
  | [], k, v => [(k, v)]
  | p :: l, k, v => if p.1 = k then (k, v) :: l else p :: objSet l k v

/-- Keys of a JS object, in order. -/
def objKeys {α : Type} (l : List (String × α)) : List String := l.map Prod.fst

/-- Document node of the design file tree: identifier, name, type tag, and
the ordered children (leaves carry the empty list; an absent children
field and an empty children array are behaviourally identical in the
source, as both end the recursion). -/
inductive FNode where
  | mk (ident nodeName nodeType : String) (children : List FNode)
deriving Repr

def FNode.id : FNode → String
  | .mk i _ _ _ => i

def FNode.name : FNode → String
  | .mk _ n _ _ => n

def FNode.type : FNode → String
  | .mk _ _ t _ => t

def FNode.children : FNode → List FNode
  | .mk _ _ _ cs => cs

/-- Root document tree returned by the files endpoint. -/
structure FigmaFile where
  document : FNode

mutual

/-- Search of findNodesById for a single id: the node itself when its id
matches, otherwise the first truthy result over the children (node objects
are always truthy, so this is the first child subtree with a match). -/
def findNode (nodeId : String) : FNode → Option FNode
  | .mk i nm ty cs =>
    if nodeId = i then some (.mk i nm ty cs)
    else findNodeInList nodeId cs

def findNodeInList (nodeId : String) : List FNode → Option FNode
  | [] => none
  | c :: cs =>
    match findNode nodeId c with
    | some r => some r
    | none => findNodeInList nodeId cs

end

mutual

/-- Depth-first pre-order left-to-right flattening of a tree; used only to
state specifications, not part of the source. -/
def preorder : FNode → List FNode
  | .mk i nm ty cs => .mk i nm ty cs :: preorderList cs

def preorderList : List FNode → List FNode
  | [] => []
  | c :: cs => preorder c ++ preorderList cs

end

/-- findNodesById: each requested id is searched independently from the
document root. -/
def findNodesById (file : FigmaFile) (nodeIds : List String) : List (Option FNode) :=
  nodeIds.map (fun nodeId => findNode nodeId file.document)

mutual

/-- Search of findNodeIdsForNames for a single name: returns the node's id
on a name-and-FRAME-type match, otherwise the first truthy id among the
children results. An empty-string id is falsy in JS, so the find-first
step skips it exactly like a missing result. -/
def findNameInNode (name : String) : FNode → Option String
  | .mk i nm ty cs =>
    if name = nm ∧ ty = "FRAME" then some i
    else findNameInList name cs

def findNameInList (name : String) : List FNode → Option String
  | [] => none
  | c :: cs =>
    match findNameInNode name c with
    | some r => if r = "" then findNameInList name cs else some r
    | none => findNameInList name cs

end

/-- findNodeIdsForNames: each name searched independently from the root. -/
def findNodeIdsForNames (file : FigmaFile) (names : List String) : List (Option String) :=
  names.map (fun nm => findNameInNode nm file.document)

/-- Outcome of reading the body of a response as JSON: the parse throws, or
it yields a document whose optional err field is recorded (only the err
field of an error body is consulted by the source). -/
inductive BodyParse where
  | failed
  | parsed (err : Option String)
deriving Repr, DecidableEq

/-- Response of the injected fetch capability: a status code and a body. -/
structure JsResponse where
  status : Nat
  body : BodyParse
deriving Repr, DecidableEq

/-- JS string concatenation of the err field onto the empty string: an
absent field is the undefined value and renders as "undefined". -/
def errText : Option String → String
  | some s => s
  | none => "undefined"

/-- Error path of figmaApi get. On a status of at least 400 the handler
appends the body's err field to an empty string inside a try block whose
finally clause throws the HTTP error: the error is thrown whether the body
parse succeeds or itself throws (a parse throw leaves the extra text
empty, since control leaves before the concatenation completes). On a
smaller status the parsed body is returned, and a body parse failure
propagates as its own error. -/
def figmaGet (r : JsResponse) : Except String BodyParse :=
  if 400 ≤ r.status then
    Except.error ("HTTP error " ++ Nat.repr r.status ++ " accessing Figma. " ++
      (match r.body with
        | .parsed e => "" ++ errText e
        | .failed => ""))
  else
    match r.body with
    | .failed => Except.error "JSON parse failure"
    | .parsed e => Except.ok (.parsed e)

/-- Record built per asset by getAssetImages: the id property written at
creation, then one scale-tagged key per processed scale, in insertion
order. A key holding none models a key explicitly set to undefined or
null. -/
structure AssetEntry where
  id : String
  scaleKeys : List (String × Option String)
deriving Repr, DecidableEq

/-- Scale-tagged key: the template literal writes the decimal numeral of
the scale between an at sign and an x. -/
def scaleKey (s : Nat) : String := "@" ++ Nat.repr s ++ "x"

/-- Images object of one response of the images endpoint: node ids mapping
to a rasterization URL, none standing for null. A node id absent from the
object also reads as none through jsGet. -/
abbrev ImagesResponse := List (String × Option String)

/-- Body of the merge loop of getAssetImages for one asset name at one
scale: reads the asset's node id from the asset list, takes the existing
record or creates one carrying the id, and writes the scale-tagged key
with the URL looked up in that scale's response (undefined, hence none,
when the node id is missing there). -/
def mergeEntry (resp : Nat → ImagesResponse) (assetList : List (String × String))
    (scale : Nat) (name : String) (old : Option AssetEntry) : AssetEntry :=
  let nodeId := (jsGet assetList name).getD ""
  let e := old.getD { id := nodeId, scaleKeys := [] }
  { id := e.id
    scaleKeys := objSet e.scaleKeys (scaleKey scale) ((jsGet (resp scale) nodeId).join) }

def mergeName (resp : Nat → ImagesResponse) (assetList : List (String × String))
    (scale : Nat) (acc : List (String × AssetEntry)) (name : String) :
    List (String × AssetEntry) :=
  objSet acc name (mergeEntry resp assetList scale name (jsGet acc name))

/-- getAssetImages: one images request per scale (resp models the response
of each), then the merge loops over scales and over the asset list's keys.
The per-scale requests run concurrently but the merge is indexed by scale,
so the result is a pure function of the responses. -/
def getAssetImages (resp : Nat → ImagesResponse) (assetList : List (String × String))
    (scales : List Nat) : List (String × AssetEntry) :=
  scales.foldl
    (fun acc scale => (objKeys assetList).foldl (mergeName resp assetList scale) acc) []

/-- Asset list builder: walks frames in order and their immediate children
in order, writing a name-to-id entry per child; later writes overwrite
earlier ones. The filter on the frames argument in the source only drops
null array entries, so the model receives the non-null frame nodes. -/
def makeAssetList (frames : List FNode) : List (String × String) :=
  frames.foldl (fun acc f => f.children.foldl (fun a c => objSet a c.name c.id) acc) []

/-- Rendering of a JS array of strings inside a template literal: elements
joined with commas. A null element renders as the empty string; callers
map null to "" before joining. -/
def joinComma : List String → String
  | [] => ""
  | [s] => s
  | s :: rest => s ++ "," ++ joinComma rest

/-- Orchestrator getFigmassets, parameterized by the already fetched file
and the per-scale images responses. Ids resolved from names are appended
to the requested ids (unresolved names append a null id, which matches no
node); unmatched frames are filtered out; an empty frame list raises the
no-matching-frames error whose message interpolates both arrays. -/
def getFigmassets (frameIds frameNames : List String) (file : FigmaFile)
    (resp : Nat → ImagesResponse) (scales : List Nat) :
    Except String (List (String × AssetEntry)) :=
  let ids : List (Option String) :=
    if frameNames.length ≠ 0 then
      frameIds.map some ++ findNodeIdsForNames file frameNames
    else frameIds.map some
  let frames := (ids.map (fun oid => oid.bind (fun i => findNode i file.document))).filterMap id
  if frames.length = 0 then
    Except.error ("No matching frames for " ++ joinComma (ids.map (fun o => o.getD "")) ++
      ", " ++ joinComma frameNames)
  else
    Except.ok (getAssetImages resp (makeAssetList frames) scales)

/-- Registration performed against the external image store: the addImage
key, the URL the image was loaded from, and the pixelRatio option. -/
structure Registration where
  key : String
  url : Option String
  pixelRatio : Nat
deriving Repr, DecidableEq

/-- Characters kept by the scale-extraction regex of addAssetsToMap:
digits and the dot. -/
def keyDigits (k : String) : String := String.mk (k.data.filter (fun c => c.isDigit || c == '.'))

/-- Decimal value of a digit character. -/
def digitVal (c : Char) : Nat := c.toNat - 48

/-- Value of a list of decimal digit characters, most significant first. -/
def digitsVal (l : List Char) : Nat := l.foldl (fun a c => a * 10 + digitVal c) 0

/-- JS numeric coercion of the kept characters. Scales are modelled as
naturals, so the strings reaching this conversion are digit-only; the
empty string coerces to zero exactly as in JS. -/
def jsNat (s : String) : Nat := digitsVal s.data

/-- Test of the source for scale-tagged keys: the key's first character is
an at sign. -/
def keyIsScaleTag (k : String) : Bool :=
  match k.data with
  | '@' :: _ => true
  | _ => false

/-- Keys of an asset record as a JS object: the id property first, then
the scale-tagged keys in insertion order. -/
def entryKeys (e : AssetEntry) : List String := "id" :: e.scaleKeys.map Prod.fst

/-- Numeric scales parsed from the record's scale-tagged keys. -/
def entryScales (e : AssetEntry) : List Nat :=
  ((entryKeys e).filter keyIsScaleTag).map (fun k => jsNat (keyDigits k))

/-- Spread of the parsed scales into Math.max. The model folds from zero,
which agrees with Math.max whenever at least one scale-tagged key is
present; the empty case (negative infinity in JS) is outside the records
the source builds from a nonempty scale list. -/
def entryMaxScale (e : AssetEntry) : Nat := (entryScales e).foldl Nat.max 0

/-- addAssetsToMap: for each asset, picks the maximal parsed scale, loads
the image at that scale's key and registers it under the asset's own name
with that scale as pixelRatio. The callback registration is modelled as
the list of performed registrations, in asset order. -/
def addAssetsToMap (assets : List (String × AssetEntry)) : List Registration :=
  assets.map (fun p =>
    let scale := entryMaxScale p.2
    { key := p.1
      url := (jsGet p.2.scaleKeys (scaleKey scale)).join
      pixelRatio := scale })

/-- Path normalization of the snapshot loader: the regex appends a slash
after a final non-slash character; the empty path and already
slash-terminated paths are left unchanged. -/
def normalizePath (p : String) : String :=
  if p = "" then p
  else
    match p.data.getLast? with
    | some c => if c = '/' then p else p ++ "/"
    | none => p

/-- Descriptor of one entry of the static assets.json manifest. -/
structure StoredAsset where
  id : String
  fileName : String
  scale : Nat
deriving Repr, DecidableEq

/-- Static snapshot loader, parameterized by the decoded manifest: returns
the URL of the manifest it fetches together with the registrations it
performs (image loaded from the base path plus the file name, registered
under the descriptor's id at its scale). -/
def loadStoredFigmassets (path : String) (manifest : List StoredAsset) :
    String × List Registration :=
  let p := normalizePath path
  (p ++ "assets.json",
    manifest.map (fun a => { key := a.id, url := some (p ++ a.fileName), pixelRatio := a.scale }))

/-! Characterization of the merge performed by getAssetImages. -/

/-- Keys object accumulated for an asset with node id idv after folding a
list of scales over a starting keys object; used only in statements. -/
def buildKeys (resp : Nat → ImagesResponse) (idv : String) (scales : List Nat)
    (init : List (String × Option String)) : List (String × Option String) :=
  scales.foldl (fun ks s => objSet ks (scaleKey s) ((jsGet (resp s) idv).join)) init

/-! Concrete instances used by example parts of claims. -/

/-- Responses of the images endpoint in the spec's merge example: scale 1
maps both node ids, scale 2 only node 1. -/
def respC1 : Nat → ImagesResponse := fun s =>
  if s = 1 then [("1", some "urlA1"), ("2", some "urlB1")]
  else if s = 2 then [("1", some "urlA2")]
  else []

/-- Tree whose root bears the searched name with a non-FRAME type and
whose first FRAME bearing the name has the empty string as id. -/
def cexTree : FNode :=
  .mk "r" "N" "DOCUMENT" [.mk "" "N" "FRAME" [], .mk "b" "N" "FRAME" []]

/-- Tree with a non-FRAME name match at the root and inside an
intermediate group, above the FRAME carrying the searched name. -/
def skipTree : FNode :=
  .mk "r" "N" "DOCUMENT" [.mk "g" "N" "GROUP" [.mk "f" "N" "FRAME" []]]


/-! Lemmas about the embedded operations. -/

theorem jsGet_objSet {α : Type} (l : List (String × α)) (k k' : String) (v : α) :
    jsGet (objSet l k v) k' = if k = k' then some v else jsGet l k' := by
  induction l with
  | nil => simp [objSet, jsGet]
  | cons p l ih =>
    simp only [objSet]
    by_cases h : p.1 = k
    · simp only [if_pos h, jsGet]
      by_cases h' : k = k'
      · simp [h']
      · have hp : ¬p.1 = k' := by rw [h]; exact h'
        simp [jsGet, h', hp]
    · simp only [if_neg h, jsGet]
      by_cases h' : p.1 = k'
      · have hk : ¬k = k' := by intro hc; rw [hc] at h; exact h h'
        simp [jsGet, h', hk]
      · simp [jsGet, h', ih]

theorem jsGet_isSome_iff {α : Type} (l : List (String × α)) (k : String) :
    (jsGet l k).isSome ↔ k ∈ objKeys l := by
  induction l with
  | nil => simp [jsGet, objKeys]
  | cons p l ih =>
    by_cases h : p.1 = k
    · simp [jsGet, objKeys, h]
    · have h' : ¬k = p.1 := fun hc => h hc.symm
      show (if p.1 = k then some p.2 else jsGet l k).isSome ↔ _
      rw [if_neg h, ih]
      show _ ↔ k ∈ p.1 :: objKeys l
      rw [List.mem_cons]
      simp [h']

theorem jsGet_eq_none_iff {α : Type} (l : List (String × α)) (k : String) :
    jsGet l k = none ↔ k ∉ objKeys l := by
  rw [← jsGet_isSome_iff, Option.not_isSome_iff_eq_none]

/-- Looking up a key after folding a list of writes over an object: the
value of the last write to that key, else the original value. -/
theorem jsGet_foldl_objSet {α : Type} (ws : List (String × α))
    (init : List (String × α)) (k : String) :
    jsGet (ws.foldl (fun a p => objSet a p.1 p.2) init) k =
      match ws.reverse.find? (fun p => p.1 == k) with
      | some p => some p.2
      | none => jsGet init k := by
  induction ws generalizing init with
  | nil => simp
  | cons w ws ih =>
    rw [List.foldl_cons, ih, List.reverse_cons, List.find?_append]
    cases hf : ws.reverse.find? (fun p => p.1 == k) with
    | some p => simp [Option.orElse]
    | none =>
      simp only [Option.orElse, Option.none_orElse]
      rw [jsGet_objSet]
      by_cases h : w.1 = k
      · simp [List.find?, h]
      · have hb : (w.1 == k) = false := by simp [h]
        simp [List.find?, hb, h]

mutual

theorem findNode_eq_find? (nodeId : String) (t : FNode) :
    findNode nodeId t = (preorder t).find? (fun n => nodeId == n.id) := by
  match t with
  | .mk i nm ty cs =>
    rw [findNode, preorder, List.find?_cons]
    by_cases h : nodeId = i
    · simp [FNode.id, h]
    · simp only [FNode.id, if_neg h]
      have hb : (nodeId == i) = false := by simp [h]
      simp only [hb, Bool.false_eq_true, if_false]
      exact findNodeInList_eq_find? nodeId cs

theorem findNodeInList_eq_find? (nodeId : String) (cs : List FNode) :
    findNodeInList nodeId cs = (preorderList cs).find? (fun n => nodeId == n.id) := by
  match cs with
  | [] => rfl
  | c :: cs' =>
    rw [findNodeInList, preorderList, List.find?_append, findNode_eq_find? nodeId c,
      findNodeInList_eq_find? nodeId cs']
    cases (preorder c).find? (fun n => nodeId == n.id) <;> simp [Option.orElse]

end

mutual

theorem findNameInNode_eq_find? (name : String) (t : FNode)
    (hids : ∀ n ∈ preorder t, n.id ≠ "") :
    findNameInNode name t =
      ((preorder t).find? (fun n => name == n.name && n.type == "FRAME")).map FNode.id := by
  match t with
  | .mk i nm ty cs =>
    rw [findNameInNode, preorder, List.find?_cons]
    by_cases h : name = nm ∧ ty = "FRAME"
    · have hb : (name == FNode.name (.mk i nm ty cs) &&
          FNode.type (.mk i nm ty cs) == "FRAME") = true := by
        simp [FNode.name, FNode.type, h.1, h.2]
      rw [if_pos h]
      simp only [hb]
      simp [FNode.id]
    · have hb : (name == FNode.name (.mk i nm ty cs) &&
          FNode.type (.mk i nm ty cs) == "FRAME") = false := by
        simp only [FNode.name, FNode.type, Bool.and_eq_false_iff]
        rcases not_and_or.mp h with h1 | h2
        · exact Or.inl (by simp [h1])
        · exact Or.inr (by simp [h2])
      rw [if_neg h]
      simp only [hb]
      exact findNameInList_eq_find? name cs fun n hn =>
        hids n (by rw [preorder]; exact List.mem_cons_of_mem _ hn)

theorem findNameInList_eq_find? (name : String) (cs : List FNode)
    (hids : ∀ n ∈ preorderList cs, n.id ≠ "") :
    findNameInList name cs =
      ((preorderList cs).find? (fun n => name == n.name && n.type == "FRAME")).map FNode.id := by
  match cs with
  | [] => rfl
  | c :: cs' =>
    have hidc : ∀ n ∈ preorder c, n.id ≠ "" := fun n hn =>
      hids n (by rw [preorderList]; exact List.mem_append_left _ hn)
    have hidcs : ∀ n ∈ preorderList cs', n.id ≠ "" := fun n hn =>
      hids n (by rw [preorderList]; exact List.mem_append_right _ hn)
    rw [findNameInList, preorderList, List.find?_append,
      findNameInNode_eq_find? name c hidc, findNameInList_eq_find? name cs' hidcs]
    cases hf : (preorder c).find? (fun n => name == n.name && n.type == "FRAME") with
    | none => simp [Option.orElse]
    | some n =>
      have hmem : n ∈ preorder c := List.mem_of_find?_eq_some hf
      have hne : n.id ≠ "" := hidc n hmem
      simp [Option.orElse, hne]

end

/-! Auxiliary facts: the decimal numeral of a natural is injective (needed
because distinct scales must produce distinct scale-tagged keys), maxima of
fold-computed lists, and substring facts for the interpolated error
messages. -/

theorem toDigitsCore_accum (b fuel : Nat) :
    ∀ (n : Nat) (ds : List Char),
      Nat.toDigitsCore b fuel n ds = Nat.toDigitsCore b fuel n [] ++ ds := by
  induction fuel with
  | zero => intro n ds; simp [Nat.toDigitsCore]
  | succ fuel ih =>
    intro n ds
    simp only [Nat.toDigitsCore]
    by_cases h : n / b = 0
    · simp [h]
    · simp only [if_neg h]
      rw [ih (n / b) (Nat.digitChar (n % b) :: ds), ih (n / b) [Nat.digitChar (n % b)]]
      simp

theorem digitVal_digitChar (d : Nat) (h : d < 10) : digitVal (Nat.digitChar d) = d := by
  interval_cases d <;> rfl

theorem digitsVal_toDigitsCore (fuel : Nat) :
    ∀ n : Nat, n < fuel → digitsVal (Nat.toDigitsCore 10 fuel n []) = n := by
  induction fuel with
  | zero => intro n h; omega
  | succ fuel ih =>
    intro n h
    simp only [Nat.toDigitsCore]
    by_cases h0 : n / 10 = 0
    · simp only [h0, if_pos]
      show digitsVal [Nat.digitChar (n % 10)] = n
      have hval : digitVal (Nat.digitChar (n % 10)) = n % 10 :=
        digitVal_digitChar (n % 10) (by omega)
      simp only [digitsVal, List.foldl_cons, List.foldl_nil, hval]
      omega
    · simp only [if_neg h0]
      rw [toDigitsCore_accum]
      have hv := ih (n / 10) (by omega)
      show digitsVal (Nat.toDigitsCore 10 fuel (n / 10) [] ++ [Nat.digitChar (n % 10)]) = n
      rw [digitsVal, List.foldl_append]
      show digitsVal (Nat.toDigitsCore 10 fuel (n / 10) []) * 10 +
        digitVal (Nat.digitChar (n % 10)) = n
      rw [hv, digitVal_digitChar (n % 10) (by omega)]
      omega

theorem repr_data_inj {m n : Nat} (h : (Nat.repr m).data = (Nat.repr n).data) : m = n := by
  have hd : Nat.toDigits 10 m = Nat.toDigits 10 n := by
    simpa [Nat.repr, List.asString] using h
  rw [Nat.toDigits, Nat.toDigits] at hd
  calc m = digitsVal (Nat.toDigitsCore 10 (m + 1) m []) :=
        (digitsVal_toDigitsCore (m + 1) m (by omega)).symm
    _ = digitsVal (Nat.toDigitsCore 10 (n + 1) n []) := by rw [hd]
    _ = n := digitsVal_toDigitsCore (n + 1) n (by omega)

theorem scaleKey_inj {a b : Nat} (h : scaleKey a = scaleKey b) : a = b := by
  have hd := congrArg String.data h
  simp only [scaleKey, String.data_append] at hd
  have h1 : (Nat.repr a).data ++ ['x'] = (Nat.repr b).data ++ ['x'] := by
    simpa using hd
  exact repr_data_inj (List.append_cancel_right h1)

theorem foldl_max_mem (l : List Nat) : ∀ a : Nat, l.foldl Nat.max a ∈ a :: l := by
  induction l with
  | nil => intro a; simp
  | cons b l ih =>
    intro a
    rw [List.foldl_cons]
    have hm := ih (Nat.max a b)
    rcases List.mem_cons.mp hm with h | h
    · rw [h]
      have hc : Nat.max a b = a ∨ Nat.max a b = b := by
        rcases Nat.le_total a b with h' | h'
        · exact Or.inr (Nat.max_eq_right h')
        · exact Or.inl (Nat.max_eq_left h')
      rcases hc with h' | h'
      · rw [h']; exact List.mem_cons_self _ _
      · rw [h']; exact List.mem_cons_of_mem _ (List.mem_cons_self _ _)
    · exact List.mem_cons_of_mem _ (List.mem_cons_of_mem _ h)

theorem le_foldl_max (l : List Nat) :
    ∀ a : Nat, a ≤ l.foldl Nat.max a ∧ ∀ x ∈ l, x ≤ l.foldl Nat.max a := by
  induction l with
  | nil => intro a; simp
  | cons b l ih =>
    intro a
    rw [List.foldl_cons]
    obtain ⟨h1, h2⟩ := ih (Nat.max a b)
    refine ⟨le_trans (Nat.le_max_left a b) h1, ?_⟩
    intro x hx
    rcases List.mem_cons.mp hx with h | h
    · rw [h]; exact le_trans (Nat.le_max_right a b) h1
    · exact h2 x h

theorem foldl_max_zero_mem {l : List Nat} (h : l ≠ []) : l.foldl Nat.max 0 ∈ l := by
  rcases List.mem_cons.mp (foldl_max_mem l 0) with h0 | hm
  · cases l with
    | nil => exact absurd rfl h
    | cons x l' =>
      rw [h0]
      have hx := (le_foldl_max (x :: l') 0).2 x (List.mem_cons_self _ _)
      rw [h0] at hx
      have hx0 : x = 0 := Nat.le_zero.mp hx
      rw [← hx0]
      exact List.mem_cons_self _ _
  · exact hm

theorem isInfix_append_left {a b : List Char} (c : List Char) (h : List.IsInfix a b) :
    List.IsInfix a (c ++ b) := by
  obtain ⟨s, t, rfl⟩ := h
  exact ⟨c ++ s, t, by simp⟩

theorem isInfix_append_right {a b : List Char} (c : List Char) (h : List.IsInfix a b) :
    List.IsInfix a (b ++ c) := by
  obtain ⟨s, t, rfl⟩ := h
  exact ⟨s, t ++ c, by simp⟩

theorem isInfix_joinComma {s : String} {l : List String} (h : s ∈ l) :
    List.IsInfix s.data (joinComma l).data := by
  induction l with
  | nil => cases h
  | cons t rest ih =>
    cases rest with
    | nil =>
      rcases List.mem_cons.mp h with h' | h'
      · subst h'; exact ⟨[], [], by simp [joinComma]⟩
      · cases h'
    | cons u rest' =>
      rcases List.mem_cons.mp h with h' | h'
      · subst h'
        show List.IsInfix s.data (s ++ "," ++ joinComma (u :: rest')).data
        simp only [String.data_append]
        exact ⟨[], ("," : String).data ++ (joinComma (u :: rest')).data, by simp⟩
      · have hi := ih h'
        show List.IsInfix s.data (t ++ "," ++ joinComma (u :: rest')).data
        simp only [String.data_append]
        rw [List.append_assoc]
        exact isInfix_append_left _ (isInfix_append_left _ hi)

theorem jsGet_mergeFold (resp : Nat → ImagesResponse) (assetList : List (String × String))
    (scale : Nat) :
    ∀ names : List String, names.Nodup →
      ∀ (acc : List (String × AssetEntry)) (nm : String),
        jsGet (names.foldl (mergeName resp assetList scale) acc) nm =
          if nm ∈ names then some (mergeEntry resp assetList scale nm (jsGet acc nm))
          else jsGet acc nm := by
  intro names
  induction names with
  | nil => intro _ acc nm; simp
  | cons n0 rest ih =>
    intro hnd acc nm
    obtain ⟨hn0, hrest⟩ := List.nodup_cons.mp hnd
    rw [List.foldl_cons, ih hrest]
    by_cases hnm : nm = n0
    · subst hnm
      rw [if_neg hn0, if_pos (List.mem_cons_self nm rest)]
      rw [mergeName, jsGet_objSet, if_pos rfl]
    · have h1 : jsGet (mergeName resp assetList scale acc n0) nm = jsGet acc nm := by
        rw [mergeName, jsGet_objSet, if_neg (fun hc => hnm hc.symm)]
      rw [h1]
      by_cases hr : nm ∈ rest
      · rw [if_pos hr, if_pos (List.mem_cons_of_mem _ hr)]
      · rw [if_neg hr,
          if_neg (fun hc => (List.mem_cons.mp hc).elim (fun h => hnm h) (fun h => hr h))]

theorem jsGet_scalesFold (resp : Nat → ImagesResponse) (assetList : List (String × String))
    (hnd : (objKeys assetList).Nodup) :
    ∀ (scales : List Nat) (acc : List (String × AssetEntry))
      (B : String → List (String × Option String)),
      (∀ nm, jsGet acc nm =
        (jsGet assetList nm).map (fun idv => AssetEntry.mk idv (B idv))) →
      ∀ nm,
        jsGet (scales.foldl
            (fun a scale => (objKeys assetList).foldl (mergeName resp assetList scale) a) acc) nm =
          (jsGet assetList nm).map
            (fun idv => AssetEntry.mk idv (buildKeys resp idv scales (B idv))) := by
  intro scales
  induction scales with
  | nil =>
    intro acc B H nm
    simpa [buildKeys] using H nm
  | cons s rest ih =>
    intro acc B H nm
    rw [List.foldl_cons]
    have H' : ∀ nm', jsGet ((objKeys assetList).foldl (mergeName resp assetList s) acc) nm' =
        (jsGet assetList nm').map
          (fun idv =>
            AssetEntry.mk idv (objSet (B idv) (scaleKey s) ((jsGet (resp s) idv).join))) := by
      intro nm'
      rw [jsGet_mergeFold resp assetList s (objKeys assetList) hnd acc nm']
      by_cases hm : nm' ∈ objKeys assetList
      · rw [if_pos hm]
        obtain ⟨idv, hidv⟩ :=
          Option.isSome_iff_exists.mp ((jsGet_isSome_iff _ _).mpr hm)
        rw [H nm', hidv]
        simp [mergeEntry, hidv]
      · rw [if_neg hm]
        have hnone : jsGet assetList nm' = none := (jsGet_eq_none_iff _ _).mpr hm
        rw [H nm', hnone]
        rfl
    have hrest := ih ((objKeys assetList).foldl (mergeName resp assetList s) acc)
      (fun idv => objSet (B idv) (scaleKey s) ((jsGet (resp s) idv).join)) H' nm
    rw [hrest]
    simp [buildKeys]

theorem getAssetImages_lookup (resp : Nat → ImagesResponse)
    (assetList : List (String × String)) (hnd : (objKeys assetList).Nodup)
    (s0 : Nat) (rest : List Nat) (nm : String) :
    jsGet (getAssetImages resp assetList (s0 :: rest)) nm =
      (jsGet assetList nm).map
        (fun idv => AssetEntry.mk idv (buildKeys resp idv (s0 :: rest) [])) := by
  rw [getAssetImages, List.foldl_cons]
  have H0 : ∀ nm', jsGet ((objKeys assetList).foldl (mergeName resp assetList s0) []) nm' =
      (jsGet assetList nm').map
        (fun idv => AssetEntry.mk idv (objSet [] (scaleKey s0) ((jsGet (resp s0) idv).join))) := by
    intro nm'
    rw [jsGet_mergeFold resp assetList s0 (objKeys assetList) hnd [] nm']
    by_cases hm : nm' ∈ objKeys assetList
    · rw [if_pos hm]
      obtain ⟨idv, hidv⟩ := Option.isSome_iff_exists.mp ((jsGet_isSome_iff _ _).mpr hm)
      rw [hidv]
      simp [mergeEntry, hidv, jsGet]
    · rw [if_neg hm]
      rw [(jsGet_eq_none_iff _ _).mpr hm]
      rfl
  have hrest := jsGet_scalesFold resp assetList hnd rest _ _ H0 nm
  rw [hrest]
  simp [buildKeys]

theorem jsGet_buildKeys_find (resp : Nat → ImagesResponse) (idv : String) :
    ∀ (scales : List Nat) (init : List (String × Option String)) (k : String),
      jsGet (buildKeys resp idv scales init) k =
        match scales.reverse.find? (fun x => scaleKey x == k) with
        | some s => some ((jsGet (resp s) idv).join)
        | none => jsGet init k := by
  intro scales
  induction scales with
  | nil => intro init k; simp [buildKeys]
  | cons s rest ih =>
    intro init k
    show jsGet (buildKeys resp idv rest (objSet init (scaleKey s) ((jsGet (resp s) idv).join))) k
      = _
    rw [ih, List.reverse_cons, List.find?_append]
    cases hf : rest.reverse.find? (fun x => scaleKey x == k) with
    | some p => simp [Option.orElse]
    | none =>
      simp only [Option.orElse, Option.none_orElse]
      rw [jsGet_objSet]
      by_cases h : scaleKey s = k
      · have hb : (scaleKey s == k) = true := by simp [h]
        simp [List.find?, hb, h]
      · have hb : (scaleKey s == k) = false := by simp [h]
        simp [List.find?, hb, h]

theorem jsGet_buildKeys (resp : Nat → ImagesResponse) (idv : String) (scales : List Nat)
    (s : Nat) (hs : s ∈ scales) :
    jsGet (buildKeys resp idv scales []) (scaleKey s) = some ((jsGet (resp s) idv).join) := by
  rw [jsGet_buildKeys_find]
  cases hf : scales.reverse.find? (fun x => scaleKey x == scaleKey s) with
  | none =>
    exfalso
    have hex : (scales.reverse.find? (fun x => scaleKey x == scaleKey s)).isSome := by
      rw [List.find?_isSome]
      exact ⟨s, List.mem_reverse.mpr hs, by simp⟩
    rw [hf] at hex
    simp at hex
  | some s1 =>
    have hp := List.find?_some hf
    have hss : s1 = s := scaleKey_inj (by simpa using hp)
    subst hss
    rfl

/-! Characterization of the asset list builder. -/

theorem makeAssetList_foldl (frames : List FNode) :
    ∀ init : List (String × String),
      frames.foldl (fun acc f => f.children.foldl (fun a c => objSet a c.name c.id) acc) init =
        ((frames.flatMap FNode.children).map (fun c => (c.name, c.id))).foldl
          (fun a p => objSet a p.1 p.2) init := by
  induction frames with
  | nil => intro init; simp
  | cons f fs ih =>
    intro init
    rw [List.foldl_cons, ih, List.flatMap_cons, List.map_append, List.foldl_append]
    congr 1
    rw [List.foldl_map]

theorem jsGet_makeAssetList (frames : List FNode) (nm : String) :
    jsGet (makeAssetList frames) nm =
      ((frames.flatMap FNode.children).reverse.find? (fun c => c.name == nm)).map FNode.id := by
  rw [makeAssetList, makeAssetList_foldl, jsGet_foldl_objSet, ← List.map_reverse,
    List.find?_map]
  have hcomp : ((fun p : String × String => p.1 == nm) ∘ (fun c : FNode => (c.name, c.id)))
      = (fun c : FNode => c.name == nm) := rfl
  rw [hcomp]
  cases hf : (frames.flatMap FNode.children).reverse.find? (fun c => c.name == nm) with
  | none => simp [jsGet]
  | some c => simp

/-! Claim theorems. -/

/-- C1: getAssetImages merges the per-scale responses into one record per
asset: the spec's concrete example holds, and in general each asset name
carries, under each requested scale's tagged key, the URL found for its
identifier in that scale's response, with none standing for an absent
identifier and no failure path. -/
theorem getAssetImages_merge :
    (getAssetImages respC1 [("a", "1"), ("b", "2")] [1, 2] =
      [("a", { id := "1", scaleKeys := [("@1x", some "urlA1"), ("@2x", some "urlA2")] }),
       ("b", { id := "2", scaleKeys := [("@1x", some "urlB1"), ("@2x", none)] })]) ∧
    ∀ (resp : Nat → ImagesResponse) (assetList : List (String × String))
      (scales : List Nat) (nm idv : String) (s : Nat),
      (objKeys assetList).Nodup → jsGet assetList nm = some idv → s ∈ scales →
      ∃ e, jsGet (getAssetImages resp assetList scales) nm = some e ∧
        e.id = idv ∧
        jsGet e.scaleKeys (scaleKey s) = some ((jsGet (resp s) idv).join) := by
  constructor
  · decide
  · intro resp al scales nm idv s hnd hlook hs
    cases scales with
    | nil => exact absurd hs (List.not_mem_nil s)
    | cons s0 rest =>
      refine ⟨AssetEntry.mk idv (buildKeys resp idv (s0 :: rest) []), ?_, rfl, ?_⟩
      · rw [getAssetImages_lookup resp al hnd s0 rest nm, hlook]
        rfl
      · exact jsGet_buildKeys resp idv (s0 :: rest) s hs

/-- C1 witness: the general part applied to the example record's asset b
at scale 2, whose id is missing from the scale-2 response. -/
theorem getAssetImages_merge_witness :
    ∃ e, jsGet (getAssetImages respC1 [("a", "1"), ("b", "2")] [1, 2]) "b" = some e ∧
      e.id = "2" ∧
      jsGet e.scaleKeys (scaleKey 2) = some ((jsGet (respC1 2) "2").join) :=
  getAssetImages_merge.2 respC1 [("a", "1"), ("b", "2")] [1, 2] "b" "2" 2
    (by decide) (by decide) (by decide)

/-- C2 counterexample: in a tree whose root carries the searched name with
a non-FRAME type and whose first FRAME carrying the name has the empty
string as identifier, the search returns the id of the second such FRAME,
not the id of the first one, because an empty id is falsy for the
find-first step. -/
theorem findNodeIdsForNames_empty_id_cex :
    findNodeIdsForNames ⟨cexTree⟩ ["N"] = [some "b"] ∧
    ((preorder cexTree).find? (fun n => "N" == n.name && n.type == "FRAME")).map FNode.id
      = some "" ∧
    (preorder cexTree).map (fun n => (n.name, n.type)) =
      [("N", "DOCUMENT"), ("N", "FRAME"), ("N", "FRAME")] ∧
    (some "b" : Option String) ≠ some "" := by
  refine ⟨by decide, by decide, by decide, by decide⟩

/-- C2 (amended): provided every node identifier in the tree is non-empty,
findNodeIdsForNames returns the identifier of the first pre-order node
whose name matches and whose type is FRAME; wrongly typed name matches are
skipped with the search continuing into their children. An empty FRAME
identifier is skipped like a missing result, hence the restriction. -/
theorem findNodeIdsForNames_first_frame (file : FigmaFile) (nm : String)
    (hids : ∀ n ∈ preorder file.document, n.id ≠ "") :
    findNodeIdsForNames file [nm] =
      [((preorder file.document).find? (fun n => nm == n.name && n.type == "FRAME")).map
        FNode.id] := by
  simp only [findNodeIdsForNames, List.map_cons, List.map_nil,
    findNameInNode_eq_find? nm file.document hids]

/-- C2 witness: the amended theorem applied to a tree with wrongly typed
name matches at the root and in a group above the FRAME. -/
theorem findNodeIdsForNames_first_frame_witness :
    findNodeIdsForNames ⟨skipTree⟩ ["N"] =
      [((preorder skipTree).find? (fun n => "N" == n.name && n.type == "FRAME")).map
        FNode.id] :=
  findNodeIdsForNames_first_frame ⟨skipTree⟩ "N" (by decide)

/-- C3: a response status of at least 400 makes get fail with an error
whose message contains the status code, whatever the body-parsing outcome:
parse success with an err field, without one, or a parse throw. -/
theorem figmaGet_http_error (r : JsResponse) (h : 400 ≤ r.status) :
    ∃ msg, figmaGet r = Except.error msg ∧
      List.IsInfix (Nat.repr r.status).data msg.data := by
  refine ⟨_, by rw [figmaGet, if_pos h], ?_⟩
  simp only [String.data_append]
  apply isInfix_append_right
  apply isInfix_append_right
  apply isInfix_append_left
  exact ⟨[], [], by simp⟩

/-- C3 witness: status 404 with a body whose JSON parse throws. -/
theorem figmaGet_http_error_witness :
    ∃ msg, figmaGet ⟨404, BodyParse.failed⟩ = Except.error msg ∧
      List.IsInfix (Nat.repr 404).data msg.data :=
  figmaGet_http_error ⟨404, BodyParse.failed⟩ (by decide)

/-- C4: each registration performed by addAssetsToMap uses the numerically
maximal scale parsed from the record's scale-tagged keys, loads the URL
stored at that scale's key and registers it under the asset's own name
with that scale as pixelRatio. -/
theorem addAssetsToMap_max_scale (assets : List (String × AssetEntry))
    (iconId : String) (e : AssetEntry) (h : (iconId, e) ∈ assets)
    (hne : entryScales e ≠ []) :
    ∃ r ∈ addAssetsToMap assets,
      r.key = iconId ∧
      r.pixelRatio ∈ entryScales e ∧
      (∀ s ∈ entryScales e, s ≤ r.pixelRatio) ∧
      r.url = (jsGet e.scaleKeys (scaleKey r.pixelRatio)).join := by
  refine ⟨⟨iconId, (jsGet e.scaleKeys (scaleKey (entryMaxScale e))).join, entryMaxScale e⟩,
    ?_, rfl, ?_, ?_, rfl⟩
  · rw [addAssetsToMap]
    exact List.mem_map.mpr ⟨(iconId, e), h, rfl⟩
  · show (entryScales e).foldl Nat.max 0 ∈ entryScales e
    exact foldl_max_zero_mem hne
  · intro s hs
    exact (le_foldl_max (entryScales e) 0).2 s hs

/-- C4 witness: a record with keys at scales 1 and 3 and no scale-2 key;
the constraints force pixelRatio 3 and the scale-3 URL. -/
theorem addAssetsToMap_max_scale_witness :
    ∃ r ∈ addAssetsToMap
        [("icon", { id := "7", scaleKeys := [("@1x", some "u1"), ("@3x", some "u3")] })],
      r.key = "icon" ∧
      r.pixelRatio ∈ entryScales
        { id := "7", scaleKeys := [("@1x", some "u1"), ("@3x", some "u3")] } ∧
      (∀ s ∈ entryScales
        { id := "7", scaleKeys := [("@1x", some "u1"), ("@3x", some "u3")] },
        s ≤ r.pixelRatio) ∧
      r.url = (jsGet [("@1x", some "u1"), ("@3x", some "u3")] (scaleKey r.pixelRatio)).join :=
  addAssetsToMap_max_scale _ "icon" _ (by decide) (by decide)

/-- C5 counterexample: a non-empty path already ending in two separators
is left unchanged by the normalization, so its normalized form ends in two
separators, not exactly one. -/
theorem normalizePath_double_slash_cex :
    normalizePath "assets//" = "assets//" ∧
    "assets//".data.getLast? = some '/' ∧
    "assets//".data.dropLast.getLast? = some '/' := by
  refine ⟨by decide, by decide, by decide⟩

/-- C5 (amended): every non-empty path is normalized to end in a
separator, with exactly one appended when the path does not already end in
one (a path already ending in separators is left unchanged); the
snapshot-loader example targets assets slash a.png and registers key a at
ratio 1. -/
theorem loadStoredFigmassets_path (p : String) (hp : p ≠ "") :
    (normalizePath p).data.getLast? = some '/' ∧
    (p.data.getLast? ≠ some '/' → normalizePath p = p ++ "/") ∧
    loadStoredFigmassets "assets" [⟨"a", "a.png", 1⟩] =
      ("assets/assets.json", [⟨"a", some "assets/a.png", 1⟩]) := by
  have hd : p.data ≠ [] := by
    intro hc
    apply hp
    cases p with
    | mk l =>
      have hl : l = [] := hc
      rw [hl]
  have hnorm : (p.data.getLast? = some '/' → normalizePath p = p) ∧
      (p.data.getLast? ≠ some '/' → normalizePath p = p ++ "/") := by
    rw [normalizePath, if_neg hp]
    rcases List.eq_nil_or_concat p.data with hnil | ⟨l', a, hconcat⟩
    · exact absurd hnil hd
    · rw [List.concat_eq_append] at hconcat
      rw [hconcat, List.getLast?_concat]
      constructor
      · intro hsl
        have ha : a = '/' := Option.some.inj hsl
        subst ha
        show (if ('/' : Char) = '/' then p else p ++ "/") = p
        rw [if_pos rfl]
      · intro hsl
        have ha : a ≠ '/' := fun hc => hsl (by rw [hc])
        show (if a = '/' then p else p ++ "/") = p ++ "/"
        rw [if_neg ha]
  refine ⟨?_, hnorm.2, by decide⟩
  by_cases hsl : p.data.getLast? = some '/'
  · rw [hnorm.1 hsl]
    exact hsl
  · rw [hnorm.2 hsl, String.data_append]
    show (p.data ++ ['/']).getLast? = some '/'
    exact List.getLast?_concat _

/-- C5 witness: the amended theorem applied to the path assets, which does
not yet end in a separator. -/
theorem loadStoredFigmassets_path_witness :
    (normalizePath "assets").data.getLast? = some '/' ∧
    (("assets" : String).data.getLast? ≠ some '/' →
      normalizePath "assets" = "assets" ++ "/") ∧
    loadStoredFigmassets "assets" [⟨"a", "a.png", 1⟩] =
      ("assets/assets.json", [⟨"a", some "assets/a.png", 1⟩]) :=
  loadStoredFigmassets_path "assets" (by decide)

/-- C6: when no requested frame id and no requested frame name resolves to
a node of the fetched document, getFigmassets fails with the
no-matching-frames error, whose message contains every requested id and
every requested name, and returns no image record. -/
theorem getFigmassets_no_frames (frameIds frameNames : List String) (file : FigmaFile)
    (resp : Nat → ImagesResponse) (scales : List Nat)
    (hids : ∀ i ∈ frameIds, findNode i file.document = none)
    (hnames : ∀ nm ∈ frameNames, findNameInNode nm file.document = none) :
    ∃ msg, getFigmassets frameIds frameNames file resp scales = Except.error msg ∧
      List.IsInfix ("No matching frames").data msg.data ∧
      (∀ i ∈ frameIds, List.IsInfix i.data msg.data) ∧
      (∀ nm ∈ frameNames, List.IsInfix nm.data msg.data) := by
  have hall : ∀ oid ∈ (if frameNames.length ≠ 0 then
      frameIds.map some ++ findNodeIdsForNames file frameNames
      else frameIds.map some),
      oid.bind (fun i => findNode i file.document) = none := by
    intro oid hoid
    have hcase : oid ∈ frameIds.map some ∨ oid ∈ findNodeIdsForNames file frameNames := by
      by_cases hn : frameNames.length ≠ 0
      · rw [if_pos hn] at hoid
        exact List.mem_append.mp hoid
      · rw [if_neg hn] at hoid
        exact Or.inl hoid
    rcases hcase with hm | hm
    · obtain ⟨i, hi, rfl⟩ := List.mem_map.mp hm
      simpa using hids i hi
    · rw [findNodeIdsForNames] at hm
      obtain ⟨nm, hnm, rfl⟩ := List.mem_map.mp hm
      rw [hnames nm hnm]
      rfl
  have hframes : ((if frameNames.length ≠ 0 then
      frameIds.map some ++ findNodeIdsForNames file frameNames
      else frameIds.map some).map
        (fun oid => oid.bind (fun i => findNode i file.document))).filterMap id = [] := by
    rw [List.filterMap_eq_nil_iff]
    intro a ha
    obtain ⟨oid, hoid, rfl⟩ := List.mem_map.mp ha
    exact hall oid hoid
  refine ⟨"No matching frames for " ++
      joinComma ((if frameNames.length ≠ 0 then
        frameIds.map some ++ findNodeIdsForNames file frameNames
        else frameIds.map some).map (fun o => o.getD "")) ++
      ", " ++ joinComma frameNames, ?_, ?_, ?_, ?_⟩
  · rw [getFigmassets]
    simp only [hframes, List.length_nil, if_pos]
  · simp only [String.data_append]
    apply isInfix_append_right
    apply isInfix_append_right
    apply isInfix_append_right
    exact ⟨[], (" for ").data, by decide⟩
  · intro i hi
    have hsome : (some i : Option String) ∈ (if frameNames.length ≠ 0 then
        frameIds.map some ++ findNodeIdsForNames file frameNames
        else frameIds.map some) := by
      by_cases hn : frameNames.length ≠ 0
      · rw [if_pos hn]
        exact List.mem_append_left _ (List.mem_map.mpr ⟨i, hi, rfl⟩)
      · rw [if_neg hn]
        exact List.mem_map.mpr ⟨i, hi, rfl⟩
    have hstr : i ∈ (if frameNames.length ≠ 0 then
        frameIds.map some ++ findNodeIdsForNames file frameNames
        else frameIds.map some).map (fun o => o.getD "") :=
      List.mem_map.mpr ⟨some i, hsome, rfl⟩
    have hj := isInfix_joinComma hstr
    simp only [String.data_append]
    apply isInfix_append_right
    apply isInfix_append_right
    exact isInfix_append_left _ hj
  · intro nm hnm
    have hj := isInfix_joinComma hnm
    simp only [String.data_append]
    exact isInfix_append_left _ hj

/-- C6 witness: the requested id X is absent from a one-node document and
no names are requested; the failure message contains X. -/
theorem getFigmassets_no_frames_witness :
    ∃ msg, getFigmassets ["X"] [] ⟨.mk "0:0" "root" "DOCUMENT" []⟩
        (fun _ => []) [1] = Except.error msg ∧
      List.IsInfix ("No matching frames").data msg.data ∧
      (∀ i ∈ ["X"], List.IsInfix i.data msg.data) ∧
      (∀ nm ∈ ([] : List String), List.IsInfix nm.data msg.data) :=
  getFigmassets_no_frames ["X"] [] ⟨.mk "0:0" "root" "DOCUMENT" []⟩ (fun _ => []) [1]
    (by intro i hi; rw [List.mem_singleton] at hi; rw [hi]; rfl)
    (by intro nm hnm; cases hnm)

/-- C7: the asset list maps each name to the identifier of the last child
carrying that name across the frames' immediate children in processing
order, so later frames overwrite earlier ones and grandchildren are never
visited; in particular two frames each holding a child named icon yield
the id of the later frame's child. -/
theorem makeAssetList_last_wins :
    (∀ (frames : List FNode) (nm : String),
      jsGet (makeAssetList frames) nm =
        ((frames.flatMap FNode.children).reverse.find? (fun c => c.name == nm)).map FNode.id) ∧
    makeAssetList
        [.mk "f1" "F1" "FRAME" [.mk "i1" "icon" "COMPONENT" []],
         .mk "f2" "F2" "FRAME" [.mk "i2" "icon" "COMPONENT" []]] = [("icon", "i2")] :=
  ⟨jsGet_makeAssetList, by decide⟩

/-- C8: findNodesById returns one result per requested id, in input order,
each being the first node in depth-first pre-order with that identifier or
none when absent, every id being searched independently from the root. -/
theorem findNodesById_first_preorder (file : FigmaFile) (nodeIds : List String) :
    findNodesById file nodeIds =
      nodeIds.map (fun nid => (preorder file.document).find? (fun n => nid == n.id)) := by
  rw [findNodesById]
  exact List.map_congr_left fun nid _ => findNode_eq_find? nid file.document

/-- C9: for a non-empty scale list the image record has exactly the asset
list's key set, and each entry's id field is that asset's identifier,
whatever identifiers the per-scale responses mention. -/
theorem getAssetImages_keys (resp : Nat → ImagesResponse)
    (assetList : List (String × String)) (scales : List Nat)
    (hnd : (objKeys assetList).Nodup) (hs : scales ≠ []) :
    (∀ nm, (jsGet (getAssetImages resp assetList scales) nm).isSome ↔
      (jsGet assetList nm).isSome) ∧
    (∀ nm idv, jsGet assetList nm = some idv →
      (jsGet (getAssetImages resp assetList scales) nm).map AssetEntry.id = some idv) := by
  cases scales with
  | nil => exact absurd rfl hs
  | cons s0 rest =>
    constructor
    · intro nm
      rw [getAssetImages_lookup resp assetList hnd s0 rest nm]
      cases jsGet assetList nm <;> simp
    · intro nm idv hlook
      rw [getAssetImages_lookup resp assetList hnd s0 rest nm, hlook]
      rfl

/-- C9 witness: a one-asset list at one scale against a response family
that mentions no identifier at all. -/
theorem getAssetImages_keys_witness :
    (∀ nm, (jsGet (getAssetImages (fun _ => []) [("a", "1")] [2]) nm).isSome ↔
      (jsGet [("a", "1")] nm).isSome) ∧
    (∀ nm idv, jsGet [("a", "1")] nm = some idv →
      (jsGet (getAssetImages (fun _ => []) [("a", "1")] [2]) nm).map AssetEntry.id
        = some idv) :=
  getAssetImages_keys (fun _ => []) [("a", "1")] [2] (by decide) (by decide)

/-- C10: on an error status, a body that parses as JSON without an err
field produces a message carrying the text undefined after the status
code, while a body whose parse throws produces a message ending with the
empty detail. -/
theorem figmaGet_error_detail (status : Nat) (h : 400 ≤ status) :
    figmaGet ⟨status, BodyParse.parsed none⟩ =
      Except.error ("HTTP error " ++ Nat.repr status ++ " accessing Figma. " ++ "undefined") ∧
    figmaGet ⟨status, BodyParse.failed⟩ =
      Except.error ("HTTP error " ++ Nat.repr status ++ " accessing Figma. " ++ "") := by
  constructor
  · rw [figmaGet, if_pos h]
    rfl
  · rw [figmaGet, if_pos h]

/-- C10 witness: status 404. -/
theorem figmaGet_error_detail_witness :
    figmaGet ⟨404, BodyParse.parsed none⟩ =
      Except.error ("HTTP error " ++ Nat.repr 404 ++ " accessing Figma. " ++ "undefined") ∧
    figmaGet ⟨404, BodyParse.failed⟩ =
      Except.error ("HTTP error " ++ Nat.repr 404 ++ " accessing Figma. " ++ "") :=
  figmaGet_error_detail 404 (by decide)

end Figmasset
